import Mathlib

/-!
Verification of the clang-ast node decoder.

We shallowly embed the decoder of `src/lib.rs` (the `NodeVisitor::visit_map`
loop and `Node::deserialize`) over a JSON value type.  The crate's submodules
`deserializer.rs`, `id.rs`, `intern.rs`, `kind.rs` and `loc.rs` are declared in
`lib.rs` but their sources are not in the repository snapshot; where a claim
depends on them, the corresponding definition is modelled from the spec and
says so in its doc comment.
-/

namespace ClangAst

/-- JSON values, as seen by the pull-style deserializer. -/
inductive Json where
  | null : Json
  | bool (b : Bool) : Json
  | num (n : Int) : Json
  | str (s : String) : Json
  | arr (elems : List Json) : Json
  | obj (fields : List (String × Json)) : Json

/-- Decode errors.  `duplicateField`, `missingField` and `unknownField`
mirror `serde::de::Error::duplicate_field` / `missing_field` /
`unknown_field`; `malformedIdentifier` and `malformedLocation` are the
spec's error kinds for the identifier codec and location resolver. -/
inductive DeError where
  | duplicateField (name : String)
  | missingField (name : String)
  | unknownField (name : String)
  | malformedIdentifier
  | malformedLocation
  | invalidType (msg : String)
deriving DecidableEq, Repr

/-- The `FirstField` enum of `NodeVisitor::visit_map` (lib.rs lines 434-440):
`#[serde(field_identifier, rename_all = "lowercase")] enum FirstField { Id, Kind, Inner }`. -/
inductive FirstField where
  | id
  | kind
  | inner
deriving DecidableEq, Repr

/-- Deserialization of `FirstField`: with `rename_all = "lowercase"` the three
variants match exactly the strings "id", "kind", "inner"; any other key is a
serde unknown-field error (the derived `field_identifier` deserializer has no
fallback variant). -/
def firstFieldFromString (s : String) : Except DeError FirstField :=
  if s = "id" then .ok .id
  else if s = "kind" then .ok .kind
  else if s = "inner" then .ok .inner
  else .error (.unknownField s)

/-- Lowercase an ASCII letter, leaving every other character alone.  Used to
state which keys are casing variants of the reserved lowercase names. -/
def lcChar (c : Char) : Char :=
  if 'A' ≤ c ∧ c ≤ 'Z' then Char.ofNat (c.toNat + 32) else c

/-- The all-lowercase spelling of a key. -/
def lowerName (s : String) : String :=
  String.mk (s.data.map lcChar)

/-- Modelled from the spec: `kind.rs` is not in the repository snapshot.  The
closed catalogue of known category names is an external static table (out of
scope per the spec); we carry a representative subset of members, plus the
`null` sentinel used when an object has no category field at all. -/
inductive Kind where
  | null
  | translationUnitDecl
  | cxxRecordDecl
  | namespaceDecl
  | enumDecl
  | enumConstantDecl
deriving DecidableEq, Repr

/-- Modelled from the spec: exact-name lookup against the static catalogue. -/
def lookupKind (s : String) : Option Kind :=
  if s = "null" then some .null
  else if s = "TranslationUnitDecl" then some .translationUnitDecl
  else if s = "CXXRecordDecl" then some .cxxRecordDecl
  else if s = "NamespaceDecl" then some .namespaceDecl
  else if s = "EnumDecl" then some .enumDecl
  else if s = "EnumConstantDecl" then some .enumConstantDecl
  else none

/-- Modelled from the spec: `AnyKind` (from the missing `kind.rs`) is either a
member of the closed catalogue or the open (unrecognized) form carrying the
raw string. -/
inductive AnyKind where
  | kind (k : Kind)
  | other (s : String)
deriving DecidableEq, Repr

/-- Modelled from the spec: a tag decode step consumes the category field
value (a string) and classifies it by exact-name lookup; on miss it yields
the open form carrying the raw string. -/
def anyKindFromJson : Json → Except DeError AnyKind
  | .str s =>
    .ok (match lookupKind s with
      | some k => .kind k
      | none => .other s)
  | _ => .error (.invalidType "kind must be a string")

/-- The `Node<T>` type (lib.rs lines 410-414): identifier, caller kind, children. -/
inductive Node (T : Type) where
  | mk (id : Nat) (kind : T) (inner : List (Node T))

def Node.id {T : Type} : Node T → Nat
  | .mk i _ _ => i

def Node.kind {T : Type} : Node T → T
  | .mk _ k _ => k

def Node.inner {T : Type} : Node T → List (Node T)
  | .mk _ _ ch => ch

/-- Modelled from the spec: the identifier codec of the missing `id.rs`.
A hex digit's value; rejects non-hex characters. -/
def hexVal (c : Char) : Option Nat :=
  if '0' ≤ c ∧ c ≤ '9' then some (c.toNat - '0'.toNat)
  else if 'a' ≤ c ∧ c ≤ 'f' then some (c.toNat - 'a'.toNat + 10)
  else if 'A' ≤ c ∧ c ≤ 'F' then some (c.toNat - 'A'.toNat + 10)
  else none

/-- Fold hex digits most-significant first into a number. -/
def parseHexAux (acc : Nat) : List Char → Option Nat
  | [] => some acc
  | c :: cs =>
    match hexVal c with
    | some d => parseHexAux (16 * acc + d) cs
    | none => none

/-- Strip an optional leading `0x` tag from the character list. -/
def dropHexTag (cs : List Char) : List Char :=
  match cs with
  | c1 :: c2 :: rest => if c1 = '0' ∧ c2 = 'x' then rest else cs
  | _ => cs

/-- Modelled from the spec: the identifier codec (§4.1) of the missing
`id.rs`.  Input: a hexadecimal string, optionally `0x`-prefixed,
case-insensitive; fails with `MalformedIdentifier` when the string contains
non-hex characters or is empty. -/
def parseId (s : String) : Except DeError Nat :=
  match parseHexAux 0 (dropHexTag s.data) with
  | some n => if dropHexTag s.data = [] then .error .malformedIdentifier else .ok n
  | none => .error .malformedIdentifier

/-- Modelled from the spec: the `Id` field value is a hex string. -/
def idFromJson : Json → Except DeError Nat
  | .str s => parseId s
  | _ => .error .malformedIdentifier

/-- The loop of `NodeVisitor::visit_map` (lib.rs lines 442-470), with the
remaining map entries as an explicit list and the construction
`NodeDeserializer::new(kind, &mut inner, map)` followed by `T::deserialize`
abstracted as `body kind rest`, returning the decoded `T` together with the
children diverted into `inner`:
- map exhausted: substitute `AnyKind::Kind(Kind::null)` and run the body;
- key "id": error `duplicate_field("id")` if an id was already read,
  otherwise read the value and continue;
- key "kind": read the `AnyKind` value and run the body over the rest;
- key "inner": error `missing_field("kind")`;
- any other key: the `FirstField` deserializer fails (unknown field).
Afterwards `id.unwrap_or_default()` fills in 0 for a missing id. -/
def visitMapLoop {T : Type}
    (body : AnyKind → List (String × Json) → Except DeError (T × List (Node T))) :
    List (String × Json) → Option Nat → Except DeError (Node T)
  | [], idAcc =>
    match body (.kind .null) [] with
    | .ok (t, ch) => .ok (.mk (idAcc.getD 0) t ch)
    | .error e => .error e
  | (key, v) :: rest, idAcc =>
    match firstFieldFromString key with
    | .error e => .error e
    | .ok .id =>
      if idAcc.isSome then .error (.duplicateField "id")
      else
        match idFromJson v with
        | .ok n => visitMapLoop body rest (some n)
        | .error e => .error e
    | .ok .kind =>
      match anyKindFromJson v with
      | .ok k =>
        match body k rest with
        | .ok (t, ch) => .ok (.mk (idAcc.getD 0) t ch)
        | .error e => .error e
      | .error e => .error e
    | .ok .inner => .error (.missingField "kind")

/-- The visitor `NodeVisitor::visit_map` on a whole object: the loop starts
with `id = None` and `inner = Vec::new()`. -/
def nodeVisitMap {T : Type}
    (body : AnyKind → List (String × Json) → Except DeError (T × List (Node T)))
    (fields : List (String × Json)) : Except DeError (Node T) :=
  visitMapLoop body fields none

/-- Modelled from the spec: the field router of the missing `deserializer.rs`
(§4.5).  Collect the elements of every `inner` occurrence among the remaining
fields; an `inner` value that is not an array is a type error. -/
def innerElems : List (String × Json) → Except DeError (List Json)
  | [] => .ok []
  | (k, v) :: rest =>
    if k = "inner" then
      match v with
      | .arr xs =>
        match innerElems rest with
        | .ok ys => .ok (xs ++ ys)
        | .error e => .error e
      | _ => .error (.invalidType "inner must be an array")
    else innerElems rest

/-- Modelled from the spec: the fields the router offers to the caller's type
`T` — everything except `inner`, which is never offered to `T`. -/
def nonInnerFields (fields : List (String × Json)) : List (String × Json) :=
  fields.filter (fun p => p.1 ≠ "inner")

/-- Decode each diverted `inner` element into one child node, in array
order, aborting on the first error. -/
def mapChildren {T : Type} (childDe : Json → Except DeError (Node T)) :
    List Json → Except DeError (List (Node T))
  | [] => .ok []
  | j :: js =>
    match childDe j with
    | .ok n =>
      match mapChildren childDe js with
      | .ok ns => .ok (n :: ns)
      | .error e => .error e
    | .error e => .error e

/-- Modelled from the spec: `NodeDeserializer` of the missing
`deserializer.rs` (§4.5).  Given the resolved tag and the remaining fields,
produce the caller's `T` from the non-`inner` fields (via the abstracted
schema `tAccept`) and the out-of-band child list from the diverted `inner`
array(s), each element decoded by `childDe`. -/
def routeFields {T : Type}
    (tAccept : AnyKind → List (String × Json) → Except DeError T)
    (childDe : Json → Except DeError (Node T))
    (kind : AnyKind) (rest : List (String × Json)) :
    Except DeError (T × List (Node T)) :=
  match tAccept kind (nonInnerFields rest) with
  | .error e => .error e
  | .ok t =>
    match innerElems rest with
    | .error e => .error e
    | .ok elems =>
      match mapChildren childDe elems with
      | .ok ch => .ok (t, ch)
      | .error e => .error e

/-- Modelled from the spec: the `includedFrom` chain of the missing `loc.rs`
(§6): `{file: string, includedFrom?: …}`, recursive. -/
inductive IncludedFrom where
  | mk (file : String) (includedFrom : Option IncludedFrom)

/-- Modelled from the spec: the mutable cursor of the source location
resolver (§4.4), the last-seen `(offset, file, line, col, tokLen,
includedFrom)` of one decode call. -/
structure LastLocation where
  offset : Nat
  file : String
  line : Nat
  col : Nat
  tokLen : Nat
  includedFrom : Option IncludedFrom

/-- Modelled from the spec: a position object as written in the document,
every field optional (absent fields inherit from the cursor). -/
structure RawLoc where
  offset : Option Nat
  file : Option String
  line : Option Nat
  col : Option Nat
  tokLen : Option Nat
  includedFrom : Option (Option IncludedFrom)

/-- Modelled from the spec (§4.4): resolving one decoded position against the
cursor.  Each field either was present in the document and overwrites the
cursor, or was absent and is filled from the cursor's current value; the
resolved position is the new cursor value. -/
def resolveLoc (raw : RawLoc) (c : LastLocation) : LastLocation :=
  { offset := raw.offset.getD c.offset
    file := raw.file.getD c.file
    line := raw.line.getD c.line
    col := raw.col.getD c.col
    tokLen := raw.tokLen.getD c.tokLen
    includedFrom := raw.includedFrom.getD c.includedFrom }

/-- Resolve a document-order sequence of positions, threading the single
cursor of the whole decode call through every position — sibling or nested
alike (§4.4: both `loc` and `range.begin`/`range.end` pull from and update
this single cursor, in document order). -/
def resolveSeq (c : LastLocation) : List RawLoc → List LastLocation
  | [] => []
  | r :: rs => resolveLoc r c :: resolveSeq (resolveLoc r c) rs

/-- Modelled from the spec: the interning scope of the missing `intern.rs`
(§4.3).  `refcount` is the reentrant activation count, `table` maps string
content to its shared handle, and `next` is the allocator of fresh handles
(two distinct allocations never produce the same handle, so `next` is never
reset). -/
structure InternState where
  refcount : Nat
  table : List (String × Nat)
  next : Nat
deriving DecidableEq, Repr

/-- Modelled from the spec (§4.3): the first `activate()` within a decode
call allocates a fresh table; every nested `activate()` only increments the
reference count. -/
def activate (st : InternState) : InternState :=
  if st.refcount = 0 then { refcount := 1, table := [], next := st.next }
  else { st with refcount := st.refcount + 1 }

/-- Modelled from the spec (§4.3): the matching `release()` decrements the
count, and only the outermost release frees the table. -/
def release (st : InternState) : InternState :=
  if st.refcount ≤ 1 then { refcount := 0, table := [], next := st.next }
  else { st with refcount := st.refcount - 1 }

/-- Look up string content in the scope's table. -/
def tableFind (s : String) : List (String × Nat) → Option Nat
  | [] => none
  | (t, h) :: rest => if t = s then some h else tableFind s rest

/-- Modelled from the spec (§4.3): given raw string bytes, return an existing
shared handle if content-equal to a previous lookup within the same active
scope, else intern a new one; without an active scope, allocate fresh without
caching. -/
def intern1 (st : InternState) (s : String) : InternState × Nat :=
  if st.refcount = 0 then ({ st with next := st.next + 1 }, st.next)
  else
    match tableFind s st.table with
    | some h => (st, h)
    | none => ({ st with table := (s, st.next) :: st.table, next := st.next + 1 }, st.next)

/-- Intern a document-order sequence of file names, returning the handle
each one resolved to. -/
def internMany (st : InternState) : List String → InternState × List Nat
  | [] => (st, [])
  | s :: ss =>
    ((internMany (intern1 st s).1 ss).1,
      (intern1 st s).2 :: (internMany (intern1 st s).1 ss).2)

/-- One top-level `Node::deserialize` call as seen by the interning scope
(lib.rs lines 478-486): activate the scope, intern the file names the decode
encounters in document order, release the scope on return. -/
def decodeCallInterns (st : InternState) (files : List String) :
    InternState × List Nat :=
  (release (internMany (activate st) files).1, (internMany (activate st) files).2)

/-- Every handle in the table was allocated before `next`. -/
def internWF (st : InternState) : Prop :=
  ∀ p ∈ st.table, p.2 < st.next

/-- Distinct strings in the table resolve to distinct handles. -/
def internInj (st : InternState) : Prop :=
  ∀ s1 s2 h1 h2, tableFind s1 st.table = some h1 → tableFind s2 st.table = some h2 →
    s1 ≠ s2 → h1 ≠ h2

/-- Every handle in the state (table entries and the allocator) is at least `n`. -/
def internAbove (n : Nat) (st : InternState) : Prop :=
  n ≤ st.next ∧ ∀ p ∈ st.table, n ≤ p.2

/-! Reference encoder for the identifier codec claims: lowercase hexadecimal
text of a number, its uppercase-letter variant, and `0x`-prefixed variant. -/

/-- Hexadecimal digits of `n`, least significant first (empty for 0). -/
def hexDigitsLE (n : Nat) : List Nat :=
  if h : n = 0 then [] else n % 16 :: hexDigitsLE (n / 16)
decreasing_by exact Nat.div_lt_self (Nat.pos_of_ne_zero h) (by decide)

/-- Value of a little-endian hex digit list. -/
def ofHexLE : List Nat → Nat
  | [] => 0
  | d :: ds => d + 16 * ofHexLE ds

/-- The lowercase character of one hex digit. -/
def hexDigitChar (d : Nat) : Char :=
  if d < 10 then Char.ofNat (48 + d) else Char.ofNat (97 + d - 10)

/-- The lowercase hexadecimal text of `x`, as the AST dump prints
identifiers (without the `0x` tag). -/
def toHexChars (x : Nat) : List Char :=
  if x = 0 then ['0'] else ((hexDigitsLE x).map hexDigitChar).reverse

def toHexString (x : Nat) : String :=
  String.mk (toHexChars x)

/-- Upcase the letter digits `a`-`f`, leaving other characters alone. -/
def hexUp (c : Char) : Char :=
  if 'a' ≤ c ∧ c ≤ 'f' then Char.ofNat (c.toNat - 32) else c

/-- The uppercase-letter variant of a hex string. -/
def hexUpperStr (s : String) : String :=
  String.mk (s.data.map hexUp)

/-! Lemmas about the identifier codec. -/

theorem ofHexLE_hexDigitsLE (n : Nat) : ofHexLE (hexDigitsLE n) = n := by
  induction n using Nat.strong_induction_on with
  | _ n ih =>
    rw [hexDigitsLE]
    by_cases h : n = 0
    · simp [h, ofHexLE]
    · rw [dif_neg h, ofHexLE,
        ih (n / 16) (Nat.div_lt_self (Nat.pos_of_ne_zero h) (by decide))]
      omega

theorem hexDigitsLE_lt (n : Nat) : ∀ d ∈ hexDigitsLE n, d < 16 := by
  induction n using Nat.strong_induction_on with
  | _ n ih =>
    rw [hexDigitsLE]
    by_cases h : n = 0
    · simp [h]
    · rw [dif_neg h]
      intro d hd
      rcases List.mem_cons.mp hd with rfl | hd
      · exact Nat.mod_lt n (by decide)
      · exact ih (n / 16) (Nat.div_lt_self (Nat.pos_of_ne_zero h) (by decide)) d hd

theorem hexDigitsLE_ne_nil (n : Nat) (hn : n ≠ 0) : hexDigitsLE n ≠ [] := by
  rw [hexDigitsLE, dif_neg hn]
  exact List.cons_ne_nil _ _

theorem hexVal_hexDigitChar (d : Nat) (hd : d < 16) :
    hexVal (hexDigitChar d) = some d := by
  interval_cases d <;> decide

theorem hexVal_hexUp_hexDigitChar (d : Nat) (hd : d < 16) :
    hexVal (hexUp (hexDigitChar d)) = some d := by
  interval_cases d <;> decide

theorem hexDigitChar_ne_x (d : Nat) (hd : d < 16) :
    hexDigitChar d ≠ 'x' ∧ hexUp (hexDigitChar d) ≠ 'x' := by
  interval_cases d <;> exact ⟨by decide, by decide⟩

theorem parseHexAux_append (xs ys : List Char) (acc : Nat) :
    parseHexAux acc (xs ++ ys) =
      (parseHexAux acc xs).bind fun a => parseHexAux a ys := by
  induction xs generalizing acc with
  | nil => simp [parseHexAux]
  | cons c cs ih =>
    simp only [List.cons_append, parseHexAux]
    cases hexVal c with
    | none => rfl
    | some d => exact ih _

theorem parseHexAux_singleton (acc : Nat) (c : Char) (d : Nat) (h : hexVal c = some d) :
    parseHexAux acc [c] = some (16 * acc + d) := by
  simp [parseHexAux, h]

theorem parseHexAux_revMap (f : Nat → Char)
    (hf : ∀ d, d < 16 → hexVal (f d) = some d)
    (ds : List Nat) (hds : ∀ d ∈ ds, d < 16) :
    ∀ acc : Nat,
      parseHexAux acc ((ds.map f).reverse) = some (acc * 16 ^ ds.length + ofHexLE ds) := by
  induction ds with
  | nil => intro acc; simp [parseHexAux, ofHexLE]
  | cons d ds ih =>
    intro acc
    have hd : d < 16 := hds d (List.mem_cons_self d ds)
    have hds2 : ∀ e ∈ ds, e < 16 := fun e he => hds e (List.mem_cons_of_mem d he)
    rw [List.map_cons, List.reverse_cons, parseHexAux_append, ih hds2 acc,
      Option.some_bind, parseHexAux_singleton _ _ d (hf d hd)]
    congr 1
    rw [ofHexLE, List.length_cons]
    ring

theorem parseId_mk (cs : List Char) :
    parseId (String.mk cs) =
      match parseHexAux 0 (dropHexTag cs) with
      | some n => if dropHexTag cs = [] then .error .malformedIdentifier else .ok n
      | none => .error .malformedIdentifier := rfl

theorem dropHexTag_of_no_x (cs : List Char) (h : ∀ c ∈ cs, c ≠ 'x') :
    dropHexTag cs = cs := by
  match cs with
  | [] => rfl
  | [c] => rfl
  | c1 :: c2 :: rest =>
    show (if c1 = '0' ∧ c2 = 'x' then rest else c1 :: c2 :: rest) = c1 :: c2 :: rest
    exact if_neg fun hc => h c2 (by simp) hc.2

theorem dropHexTag_tagged (cs : List Char) : dropHexTag ('0' :: 'x' :: cs) = cs := by
  show (if ('0' : Char) = '0' ∧ ('x' : Char) = 'x' then cs else '0' :: 'x' :: cs) = cs
  exact if_pos ⟨rfl, rfl⟩

theorem toHexChars_no_x (x : Nat) : ∀ c ∈ toHexChars x, c ≠ 'x' := by
  rw [toHexChars]
  by_cases h : x = 0
  · rw [if_pos h]; intro c hc; simp at hc; subst hc; decide
  · rw [if_neg h]
    intro c hc
    rw [List.mem_reverse] at hc
    obtain ⟨d, hd, rfl⟩ := List.mem_map.mp hc
    exact (hexDigitChar_ne_x d (hexDigitsLE_lt x d hd)).1

theorem toHexChars_up_no_x (x : Nat) : ∀ c ∈ (toHexChars x).map hexUp, c ≠ 'x' := by
  intro c hc
  obtain ⟨b, hb, rfl⟩ := List.mem_map.mp hc
  rw [toHexChars] at hb
  by_cases h : x = 0
  · rw [if_pos h] at hb; simp at hb; subst hb; decide
  · rw [if_neg h, List.mem_reverse] at hb
    obtain ⟨d, hd, rfl⟩ := List.mem_map.mp hb
    exact (hexDigitChar_ne_x d (hexDigitsLE_lt x d hd)).2

theorem parseHexAux_toHexChars (x : Nat) : parseHexAux 0 (toHexChars x) = some x := by
  rw [toHexChars]
  by_cases h : x = 0
  · rw [if_pos h, h]; decide
  · rw [if_neg h,
      parseHexAux_revMap hexDigitChar hexVal_hexDigitChar (hexDigitsLE x) (hexDigitsLE_lt x) 0,
      ofHexLE_hexDigitsLE]
    simp

theorem parseHexAux_toHexChars_up (x : Nat) :
    parseHexAux 0 ((toHexChars x).map hexUp) = some x := by
  rw [toHexChars]
  by_cases h : x = 0
  · rw [if_pos h, h]; decide
  · rw [if_neg h, List.map_reverse, List.map_map,
      parseHexAux_revMap (hexUp ∘ hexDigitChar)
        (fun d hd => hexVal_hexUp_hexDigitChar d hd) (hexDigitsLE x) (hexDigitsLE_lt x) 0,
      ofHexLE_hexDigitsLE]
    simp

theorem toHexChars_ne_nil (x : Nat) : toHexChars x ≠ [] := by
  rw [toHexChars]
  by_cases h : x = 0
  · rw [if_pos h]; exact List.cons_ne_nil _ _
  · rw [if_neg h]
    intro hnil
    rw [List.reverse_eq_nil_iff, List.map_eq_nil_iff] at hnil
    exact hexDigitsLE_ne_nil x h hnil

/-! Unfolding equations for the visitor loop. -/

theorem visitMapLoop_nil {T : Type}
    (body : AnyKind → List (String × Json) → Except DeError (T × List (Node T)))
    (idAcc : Option Nat) :
    visitMapLoop body [] idAcc =
      match body (.kind .null) [] with
      | .ok (t, ch) => .ok (.mk (idAcc.getD 0) t ch)
      | .error e => .error e := rfl

theorem visitMapLoop_cons {T : Type}
    (body : AnyKind → List (String × Json) → Except DeError (T × List (Node T)))
    (key : String) (v : Json) (rest : List (String × Json)) (idAcc : Option Nat) :
    visitMapLoop body ((key, v) :: rest) idAcc =
      match firstFieldFromString key with
      | .error e => .error e
      | .ok .id =>
        if idAcc.isSome then .error (.duplicateField "id")
        else
          match idFromJson v with
          | .ok n => visitMapLoop body rest (some n)
          | .error e => .error e
      | .ok .kind =>
        match anyKindFromJson v with
        | .ok k =>
          match body k rest with
          | .ok (t, ch) => .ok (.mk (idAcc.getD 0) t ch)
          | .error e => .error e
        | .error e => .error e
      | .ok .inner => .error (.missingField "kind") := rfl

/-- C1: an `inner` key read while no `kind` key has been read yet (any state
of the first-field loop, in particular the start of the object) makes the
decode fail with the missing-`kind` error, and no node value is produced. -/
theorem inner_before_kind_is_missing_category {T : Type}
    (body : AnyKind → List (String × Json) → Except DeError (T × List (Node T)))
    (v : Json) (rest : List (String × Json)) (idAcc : Option Nat) :
    visitMapLoop body (("inner", v) :: rest) idAcc = .error (.missingField "kind") ∧
    nodeVisitMap body (("inner", v) :: rest) = .error (.missingField "kind") :=
  ⟨rfl, rfl⟩

/-- C2: a second `id` key before any `kind` key makes the decode fail with
the duplicate-field error for `id`, whatever the second value is (it is
never read, let alone silently overwritten). -/
theorem second_id_is_duplicate_field {T : Type}
    (body : AnyKind → List (String × Json) → Except DeError (T × List (Node T)))
    (v1 v2 : Json) (rest : List (String × Json)) (n : Nat)
    (h1 : idFromJson v1 = .ok n) :
    nodeVisitMap body (("id", v1) :: ("id", v2) :: rest) = .error (.duplicateField "id") ∧
    visitMapLoop body (("id", v2) :: rest) (some n) = .error (.duplicateField "id") := by
  have h2 : visitMapLoop body (("id", v2) :: rest) (some n) = .error (.duplicateField "id") := rfl
  refine ⟨?_, h2⟩
  calc nodeVisitMap body (("id", v1) :: ("id", v2) :: rest)
      = (match idFromJson v1 with
        | .ok m => visitMapLoop body (("id", v2) :: rest) (some m)
        | .error e => .error e) := rfl
    _ = .error (.duplicateField "id") := by rw [h1]; exact h2

/-- Witness for C2 at a concrete document `{"id":"1","id":"2"}`. -/
theorem second_id_is_duplicate_field_witness :
    nodeVisitMap (T := AnyKind) (fun k _ => .ok (k, []))
        [("id", Json.str "1"), ("id", Json.str "2")] = .error (.duplicateField "id") ∧
    visitMapLoop (T := AnyKind) (fun k _ => .ok (k, []))
        [("id", Json.str "2")] (some 1) = .error (.duplicateField "id") :=
  second_id_is_duplicate_field (fun k _ => .ok (k, [])) (Json.str "1") (Json.str "2") [] 1 rfl

/-- C3: an object with no `kind` key at all (the empty object, or an object
whose only key is a valid `id`) is decoded by substituting the null-tag
sentinel `AnyKind::Kind(Kind::null)` for the category and invoking the
caller's `T` against it; the decode succeeds whenever `T` accepts the null
category, with identifier 0 resp. the parsed id. -/
theorem missing_kind_uses_null_sentinel {T : Type}
    (body : AnyKind → List (String × Json) → Except DeError (T × List (Node T)))
    (t : T) (ch : List (Node T)) (v : Json) (n : Nat)
    (hb : body (AnyKind.kind Kind.null) [] = .ok (t, ch))
    (hv : idFromJson v = .ok n) :
    nodeVisitMap body [] = .ok (.mk 0 t ch) ∧
    nodeVisitMap body [("id", v)] = .ok (.mk n t ch) := by
  have hnil : ∀ idAcc : Option Nat,
      visitMapLoop body [] idAcc = .ok (.mk (idAcc.getD 0) t ch) := by
    intro idAcc
    rw [visitMapLoop_nil, hb]
  refine ⟨hnil none, ?_⟩
  calc nodeVisitMap body [("id", v)]
      = (match idFromJson v with
        | .ok m => visitMapLoop body [] (some m)
        | .error e => .error e) := rfl
    _ = .ok (.mk n t ch) := by rw [hv]; exact hnil (some n)

/-- Witness for C3 with `T` accepting the null category. -/
theorem missing_kind_uses_null_sentinel_witness :
    nodeVisitMap (T := AnyKind) (fun k _ => .ok (k, [])) [] =
      .ok (.mk 0 (.kind .null) []) ∧
    nodeVisitMap (T := AnyKind) (fun k _ => .ok (k, [])) [("id", Json.str "0x2")] =
      .ok (.mk 2 (.kind .null) []) :=
  missing_kind_uses_null_sentinel (fun k _ => .ok (k, [])) (AnyKind.kind Kind.null) []
    (Json.str "0x2") 2 rfl rfl

/-- C4: the identifier codec decodes the lowercase hex text of any 64-bit
`x` to `x`, and decodes the uppercase-letter variant and the `0x`-prefixed
variant of the same digits to the same `x`. -/
theorem identifier_codec_case_and_tag_invariance (x : Nat) (_hx : x < 2 ^ 64) :
    parseId (toHexString x) = .ok x ∧
    parseId (hexUpperStr (toHexString x)) = .ok x ∧
    parseId (String.mk ('0' :: 'x' :: (toHexString x).data)) = .ok x := by
  refine ⟨?_, ?_, ?_⟩
  · show parseId (String.mk (toHexChars x)) = .ok x
    rw [parseId_mk, dropHexTag_of_no_x _ (toHexChars_no_x x), parseHexAux_toHexChars]
    simp [toHexChars_ne_nil x]
  · show parseId (String.mk ((toHexChars x).map hexUp)) = .ok x
    have hne : (toHexChars x).map hexUp ≠ [] := by
      rw [Ne, List.map_eq_nil_iff]
      exact toHexChars_ne_nil x
    rw [parseId_mk, dropHexTag_of_no_x _ (toHexChars_up_no_x x), parseHexAux_toHexChars_up]
    simp [hne]
  · show parseId (String.mk ('0' :: 'x' :: toHexChars x)) = .ok x
    rw [parseId_mk, dropHexTag_tagged, parseHexAux_toHexChars]
    simp [toHexChars_ne_nil x]

/-- Witness for C4 at `x = 4023` (hex `fb7` / `FB7` / `0xfb7`). -/
theorem identifier_codec_case_and_tag_invariance_witness :
    4023 < 2 ^ 64 ∧
    (parseId (toHexString 4023) = .ok 4023 ∧
     parseId (hexUpperStr (toHexString 4023)) = .ok 4023 ∧
     parseId (String.mk ('0' :: 'x' :: (toHexString 4023).data)) = .ok 4023) :=
  ⟨by decide, identifier_codec_case_and_tag_invariance 4023 (by decide)⟩

/-- C8: a key that is neither `id`, `kind` nor `inner`, read while no `kind`
key has been read yet (any state of the first-field loop), makes the decode
fail with an unknown-field error: the field is neither skipped nor routed to
the caller's type. -/
theorem unknown_key_before_kind_rejected {T : Type}
    (body : AnyKind → List (String × Json) → Except DeError (T × List (Node T)))
    (key : String) (v : Json) (rest : List (String × Json)) (idAcc : Option Nat)
    (h1 : key ≠ "id") (h2 : key ≠ "kind") (h3 : key ≠ "inner") :
    visitMapLoop body ((key, v) :: rest) idAcc = .error (.unknownField key) := by
  rw [visitMapLoop_cons]
  unfold firstFieldFromString
  rw [if_neg h1, if_neg h2, if_neg h3]

/-- Witness for C8 at the concrete key "name". -/
theorem unknown_key_before_kind_rejected_witness :
    visitMapLoop (T := AnyKind) (fun k _ => .ok (k, []))
      [("name", Json.str "S")] none = .error (.unknownField "name") :=
  unknown_key_before_kind_rejected (fun k _ => .ok (k, [])) "name" (Json.str "S") [] none
    (by decide) (by decide) (by decide)

/-- C10: the reserved first-position key names are matched case-sensitively
in lowercase: any key that is a casing variant of `id`, `kind` or `inner`
other than the lowercase spelling itself (such as "Id", "Kind", "INNER",
"ID" or "iNnEr"), read before the category field in any state of the
first-field loop, is rejected as an unknown field, not treated as the
identifier, category or children field. -/
theorem reserved_keys_case_sensitive {T : Type}
    (body : AnyKind → List (String × Json) → Except DeError (T × List (Node T)))
    (key : String) (v : Json) (rest : List (String × Json)) (idAcc : Option Nat)
    (hres : lowerName key = "id" ∨ lowerName key = "kind" ∨ lowerName key = "inner")
    (hcase : key ≠ lowerName key) :
    visitMapLoop body ((key, v) :: rest) idAcc = .error (.unknownField key) := by
  have h1 : key ≠ "id" := by
    intro h
    subst h
    rcases hres with h | h | h
    · exact hcase h.symm
    · exact absurd h (by decide)
    · exact absurd h (by decide)
  have h2 : key ≠ "kind" := by
    intro h
    subst h
    rcases hres with h | h | h
    · exact absurd h (by decide)
    · exact hcase h.symm
    · exact absurd h (by decide)
  have h3 : key ≠ "inner" := by
    intro h
    subst h
    rcases hres with h | h | h
    · exact absurd h (by decide)
    · exact absurd h (by decide)
    · exact hcase h.symm
  rw [visitMapLoop_cons]
  unfold firstFieldFromString
  rw [if_neg h1, if_neg h2, if_neg h3]

/-- Witness for C10 at the concrete casings "ID", "Kind" and "iNnEr". -/
theorem reserved_keys_case_sensitive_witness :
    visitMapLoop (T := AnyKind) (fun k _ => .ok (k, []))
        [("ID", Json.str "1")] none = .error (.unknownField "ID") ∧
    visitMapLoop (T := AnyKind) (fun k _ => .ok (k, []))
        [("Kind", Json.str "X")] none = .error (.unknownField "Kind") ∧
    visitMapLoop (T := AnyKind) (fun k _ => .ok (k, []))
        [("iNnEr", Json.arr [])] none = .error (.unknownField "iNnEr") :=
  ⟨reserved_keys_case_sensitive (fun k _ => .ok (k, [])) "ID" (Json.str "1") [] none
      (Or.inl (by decide)) (by decide),
    reserved_keys_case_sensitive (fun k _ => .ok (k, [])) "Kind" (Json.str "X") [] none
      (Or.inr (Or.inl (by decide))) (by decide),
    reserved_keys_case_sensitive (fun k _ => .ok (k, [])) "iNnEr" (Json.arr []) [] none
      (Or.inr (Or.inr (by decide))) (by decide)⟩

/-! Lemmas for the absent-id and empty-children claims. -/

theorem firstFieldFromString_id (key : String)
    (h : firstFieldFromString key = .ok .id) : key = "id" := by
  unfold firstFieldFromString at h
  split at h
  · assumption
  · split at h
    · exact absurd h (by simp)
    · split at h
      · exact absurd h (by simp)
      · exact absurd h (by simp)

theorem visitMapLoop_id_of_no_id {T : Type}
    (body : AnyKind → List (String × Json) → Except DeError (T × List (Node T))) :
    ∀ (fields : List (String × Json)) (idAcc : Option Nat) (node : Node T),
      (∀ v, ("id", v) ∉ fields) →
      visitMapLoop body fields idAcc = .ok node → node.id = idAcc.getD 0 := by
  intro fields
  induction fields with
  | nil =>
    intro idAcc node _ h
    rw [visitMapLoop_nil] at h
    cases hb : body (.kind .null) [] with
    | ok p =>
      obtain ⟨t, ch⟩ := p
      rw [hb] at h
      injection h with h
      subst h
      rfl
    | error e => rw [hb] at h; exact Except.noConfusion h
  | cons kv rest _ih =>
    obtain ⟨key, v⟩ := kv
    intro idAcc node hno h
    rw [visitMapLoop_cons] at h
    split at h
    · exact Except.noConfusion h
    · rename_i heq
      have hkey : key = "id" := firstFieldFromString_id key heq
      subst hkey
      exact absurd (List.mem_cons_self _ _) (hno v)
    · split at h
      · split at h
        · injection h with h
          subst h
          rfl
        · exact Except.noConfusion h
      · exact Except.noConfusion h
    · exact Except.noConfusion h

/-- C7: an object with no `id` key that decodes successfully yields a node
whose identifier is the default value 0 (`id.unwrap_or_default()`). -/
theorem absent_id_defaults_to_zero {T : Type}
    (body : AnyKind → List (String × Json) → Except DeError (T × List (Node T)))
    (fields : List (String × Json)) (node : Node T)
    (hno : ∀ v, ("id", v) ∉ fields)
    (h : nodeVisitMap body fields = .ok node) : node.id = 0 :=
  visitMapLoop_id_of_no_id body fields none node hno h

/-- Witness for C7 at the concrete document `{"kind":"EnumDecl"}`. -/
theorem absent_id_defaults_to_zero_witness :
    (Node.mk 0 (AnyKind.kind Kind.enumDecl) [] : Node AnyKind).id = 0 :=
  absent_id_defaults_to_zero (fun k _ => .ok (k, []))
    [("kind", Json.str "EnumDecl")] (Node.mk 0 (AnyKind.kind Kind.enumDecl) [])
    (fun v => by simp) rfl

theorem innerElems_of_no_inner :
    ∀ fields : List (String × Json),
      (∀ v, ("inner", v) ∉ fields) → innerElems fields = .ok [] := by
  intro fields
  induction fields with
  | nil => intro _; rfl
  | cons kv rest ih =>
    obtain ⟨k, v⟩ := kv
    intro hno
    show (if k = "inner" then _ else innerElems rest) = .ok []
    rw [if_neg]
    · exact ih fun v2 hv2 => hno v2 (List.mem_cons_of_mem _ hv2)
    · intro hk
      subst hk
      exact hno v (List.mem_cons_self _ _)

theorem routeFields_no_inner {T : Type}
    (tAccept : AnyKind → List (String × Json) → Except DeError T)
    (childDe : Json → Except DeError (Node T))
    (k : AnyKind) (rest : List (String × Json)) (t : T) (ch : List (Node T))
    (hno : ∀ v, ("inner", v) ∉ rest)
    (h : routeFields tAccept childDe k rest = .ok (t, ch)) : ch = [] := by
  unfold routeFields at h
  cases ha : tAccept k (nonInnerFields rest) with
  | error e => rw [ha] at h; exact Except.noConfusion h
  | ok t2 =>
    rw [ha, innerElems_of_no_inner rest hno] at h
    injection h with h
    injection h with h1 h2
    exact h2.symm

/-- C9: a document object that decodes successfully and contains no `inner`
key yields a node with an empty children sequence: `inner` starts as
`Vec::new()` and is only populated from a diverted `inner` array. -/
theorem no_inner_key_empty_children {T : Type}
    (tAccept : AnyKind → List (String × Json) → Except DeError T)
    (childDe : Json → Except DeError (Node T))
    (fields : List (String × Json)) (node : Node T)
    (hno : ∀ v, ("inner", v) ∉ fields)
    (h : nodeVisitMap (routeFields tAccept childDe) fields = .ok node) :
    node.inner = [] := by
  suffices hloop : ∀ (fs : List (String × Json)) (idAcc : Option Nat) (nd : Node T),
      (∀ v, ("inner", v) ∉ fs) →
      visitMapLoop (routeFields tAccept childDe) fs idAcc = .ok nd → nd.inner = [] from
    hloop fields none node hno h
  intro fs
  induction fs with
  | nil =>
    intro idAcc nd _ hh
    rw [visitMapLoop_nil] at hh
    cases hb : routeFields tAccept childDe (.kind .null) [] with
    | error e => rw [hb] at hh; exact Except.noConfusion hh
    | ok p =>
      obtain ⟨t, ch⟩ := p
      rw [hb] at hh
      injection hh with hh
      subst hh
      exact routeFields_no_inner tAccept childDe _ [] t ch (fun v => by simp) hb
  | cons kv rest ih =>
    obtain ⟨key, v⟩ := kv
    intro idAcc nd hno2 hh
    have hrest : ∀ v2, ("inner", v2) ∉ rest :=
      fun v2 hv2 => hno2 v2 (List.mem_cons_of_mem _ hv2)
    rw [visitMapLoop_cons] at hh
    split at hh
    · exact Except.noConfusion hh
    · split at hh
      · exact Except.noConfusion hh
      · split at hh
        · rename_i n _heq
          exact ih (some n) nd hrest hh
        · exact Except.noConfusion hh
    · split at hh
      · rename_i k _heq2
        split at hh
        · rename_i t ch heq3
          injection hh with hh
          subst hh
          exact routeFields_no_inner tAccept childDe k rest t ch hrest heq3
        · exact Except.noConfusion hh
      · exact Except.noConfusion hh
    · exact Except.noConfusion hh

/-- Witness for C9 at the concrete document `{"kind":"EnumDecl","name":"E"}`. -/
theorem no_inner_key_empty_children_witness :
    (Node.mk 0 (AnyKind.kind Kind.enumDecl) [] : Node AnyKind).inner = [] :=
  no_inner_key_empty_children (fun k _ => .ok k) (fun _ => .error (.invalidType "no"))
    [("kind", Json.str "EnumDecl"), ("name", Json.str "E")]
    (Node.mk 0 (AnyKind.kind Kind.enumDecl) [])
    (fun v => by simp) rfl

/-! Lemmas for the location-inheritance claim. -/

theorem resolveSeq_append (xs ys : List RawLoc) :
    ∀ c : LastLocation,
      resolveSeq c (xs ++ ys) =
        resolveSeq c xs ++ resolveSeq (xs.foldl (fun cur r => resolveLoc r cur) c) ys := by
  induction xs with
  | nil => intro c; rfl
  | cons r rs ih =>
    intro c
    simp only [List.cons_append, resolveSeq, List.foldl_cons, List.append_eq]
    rw [ih]

theorem foldl_resolveLoc_file (mid : List RawLoc) :
    ∀ c : LastLocation, (∀ q ∈ mid, q.file = none) →
      (mid.foldl (fun cur r => resolveLoc r cur) c).file = c.file := by
  induction mid with
  | nil => intro c _; rfl
  | cons q qs ih =>
    intro c h
    rw [List.foldl_cons, ih (resolveLoc q c) (fun p hp => h p (List.mem_cons_of_mem _ hp))]
    show (resolveLoc q c).file = c.file
    simp [resolveLoc, h q (List.mem_cons_self _ _)]

/-- C5: in a document-order sequence of positions threaded through the one
cursor of the whole decode call, a position with `file` present followed —
at any distance, with no intervening `file` — by a position omitting
`file`, makes the second resolve to the first's resolved `file`; the two
positions need not be nested, only ordered. -/
theorem omitted_file_inherited_from_cursor (c : LastLocation)
    (p1 p2 : RawLoc) (mid : List RawLoc) (f : String)
    (h1 : p1.file = some f) (h2 : p2.file = none)
    (hmid : ∀ q ∈ mid, q.file = none) :
    (resolveSeq c (p1 :: mid ++ [p2])).getLast? =
      some (resolveLoc p2 ((p1 :: mid).foldl (fun cur r => resolveLoc r cur) c)) ∧
    (resolveLoc p2 ((p1 :: mid).foldl (fun cur r => resolveLoc r cur) c)).file =
      (resolveLoc p1 c).file ∧
    (resolveLoc p1 c).file = f := by
  refine ⟨?_, ?_, ?_⟩
  · rw [resolveSeq_append]
    show (_ ++ [resolveLoc p2 _]).getLast? = _
    rw [List.getLast?_concat]
  · have hstep : (resolveLoc p2 ((p1 :: mid).foldl (fun cur r => resolveLoc r cur) c)).file
        = ((p1 :: mid).foldl (fun cur r => resolveLoc r cur) c).file := by
      simp [resolveLoc, h2]
    rw [hstep, List.foldl_cons, foldl_resolveLoc_file mid (resolveLoc p1 c) hmid]
  · simp [resolveLoc, h1]

/-- Witness for C5: two sibling positions, the second omitting `file`, with
one file-less position between them. -/
theorem omitted_file_inherited_from_cursor_witness :
    (resolveSeq (LastLocation.mk 0 "" 0 0 0 none)
        (RawLoc.mk (some 6) (some "source.cc") (some 1) (some 7) (some 1) none ::
          [RawLoc.mk (some 9) none none (some 3) none none] ++
          [RawLoc.mk (some 12) none (some 2) (some 1) (some 1) none])).getLast? =
      some (resolveLoc (RawLoc.mk (some 12) none (some 2) (some 1) (some 1) none)
        ((RawLoc.mk (some 6) (some "source.cc") (some 1) (some 7) (some 1) none ::
          [RawLoc.mk (some 9) none none (some 3) none none]).foldl
            (fun cur r => resolveLoc r cur) (LastLocation.mk 0 "" 0 0 0 none))) ∧
    (resolveLoc (RawLoc.mk (some 12) none (some 2) (some 1) (some 1) none)
        ((RawLoc.mk (some 6) (some "source.cc") (some 1) (some 7) (some 1) none ::
          [RawLoc.mk (some 9) none none (some 3) none none]).foldl
            (fun cur r => resolveLoc r cur) (LastLocation.mk 0 "" 0 0 0 none))).file =
      (resolveLoc (RawLoc.mk (some 6) (some "source.cc") (some 1) (some 7) (some 1) none)
        (LastLocation.mk 0 "" 0 0 0 none)).file ∧
    (resolveLoc (RawLoc.mk (some 6) (some "source.cc") (some 1) (some 7) (some 1) none)
        (LastLocation.mk 0 "" 0 0 0 none)).file = "source.cc" :=
  omitted_file_inherited_from_cursor (LastLocation.mk 0 "" 0 0 0 none)
    (RawLoc.mk (some 6) (some "source.cc") (some 1) (some 7) (some 1) none)
    (RawLoc.mk (some 12) none (some 2) (some 1) (some 1) none)
    [RawLoc.mk (some 9) none none (some 3) none none] "source.cc"
    rfl rfl
    (fun q hq => by rw [List.mem_singleton] at hq; subst hq; rfl)

/-! Lemmas for the interning-scope claim. -/

theorem intern1_zero (st : InternState) (s : String) (hr : st.refcount = 0) :
    intern1 st s = ({ st with next := st.next + 1 }, st.next) := by
  unfold intern1
  rw [if_pos hr]

theorem intern1_found (st : InternState) (s : String) (h : Nat)
    (hr : st.refcount ≠ 0) (hf : tableFind s st.table = some h) :
    intern1 st s = (st, h) := by
  unfold intern1
  rw [if_neg hr, hf]

theorem intern1_fresh (st : InternState) (s : String)
    (hr : st.refcount ≠ 0) (hf : tableFind s st.table = none) :
    intern1 st s =
      ({ st with table := (s, st.next) :: st.table, next := st.next + 1 }, st.next) := by
  unfold intern1
  rw [if_neg hr, hf]

theorem tableFind_mem (s : String) (h : Nat) :
    ∀ tbl : List (String × Nat), tableFind s tbl = some h → (s, h) ∈ tbl := by
  intro tbl
  induction tbl with
  | nil => intro hf; exact Option.noConfusion hf
  | cons p rest ih =>
    obtain ⟨t, v⟩ := p
    intro hf
    show (s, h) ∈ (t, v) :: rest
    by_cases ht : t = s
    · subst ht
      rw [show tableFind t ((t, v) :: rest) = some v from by simp [tableFind]] at hf
      injection hf with hf
      subst hf
      exact List.mem_cons_self _ _
    · rw [show tableFind s ((t, v) :: rest) = tableFind s rest from by simp [tableFind, ht]] at hf
      exact List.mem_cons_of_mem _ (ih hf)

theorem intern1_refcount (st : InternState) (s : String) :
    (intern1 st s).1.refcount = st.refcount := by
  by_cases hr : st.refcount = 0
  · rw [intern1_zero st s hr]
  · cases hf : tableFind s st.table with
    | none => rw [intern1_fresh st s hr hf]
    | some h => rw [intern1_found st s h hr hf]

theorem intern1_next_le (st : InternState) (s : String) :
    st.next ≤ (intern1 st s).1.next := by
  by_cases hr : st.refcount = 0
  · rw [intern1_zero st s hr]; exact Nat.le_succ _
  · cases hf : tableFind s st.table with
    | none => rw [intern1_fresh st s hr hf]; exact Nat.le_succ _
    | some h => rw [intern1_found st s h hr hf]

theorem intern1_handle_lt (st : InternState) (s : String) (hwf : internWF st) :
    (intern1 st s).2 < (intern1 st s).1.next := by
  by_cases hr : st.refcount = 0
  · rw [intern1_zero st s hr]; exact Nat.lt_succ_self _
  · cases hf : tableFind s st.table with
    | none => rw [intern1_fresh st s hr hf]; exact Nat.lt_succ_self _
    | some h =>
      rw [intern1_found st s h hr hf]
      exact hwf (s, h) (tableFind_mem s h st.table hf)

theorem intern1_WF (st : InternState) (s : String) (hwf : internWF st) :
    internWF (intern1 st s).1 := by
  by_cases hr : st.refcount = 0
  · rw [intern1_zero st s hr]
    intro p hp
    exact Nat.lt_succ_of_lt (hwf p hp)
  · cases hf : tableFind s st.table with
    | none =>
      rw [intern1_fresh st s hr hf]
      intro p hp
      rcases List.mem_cons.mp hp with rfl | hp
      · exact Nat.lt_succ_self _
      · exact Nat.lt_succ_of_lt (hwf p hp)
    | some h => rw [intern1_found st s h hr hf]; exact hwf

theorem tableFind_cons (s t : String) (v : Nat) (tbl : List (String × Nat)) :
    tableFind s ((t, v) :: tbl) = if t = s then some v else tableFind s tbl := rfl

theorem intern1_inj (st : InternState) (s : String)
    (hwf : internWF st) (hinj : internInj st) : internInj (intern1 st s).1 := by
  by_cases hr : st.refcount = 0
  · rw [intern1_zero st s hr]; exact hinj
  · cases hf : tableFind s st.table with
    | some h => rw [intern1_found st s h hr hf]; exact hinj
    | none =>
      rw [intern1_fresh st s hr hf]
      intro s1 s2 h1 h2 hf1 hf2 hne
      rw [tableFind_cons] at hf1 hf2
      by_cases e1 : s = s1 <;> by_cases e2 : s = s2
      · exact absurd (e1 ▸ e2) hne
      · rw [if_pos e1] at hf1
        rw [if_neg e2] at hf2
        injection hf1 with hf1
        subst hf1
        exact Nat.ne_of_gt (hwf (s2, h2) (tableFind_mem s2 h2 st.table hf2))
      · rw [if_neg e1] at hf1
        rw [if_pos e2] at hf2
        injection hf2 with hf2
        subst hf2
        exact Nat.ne_of_lt (hwf (s1, h1) (tableFind_mem s1 h1 st.table hf1))
      · rw [if_neg e1] at hf1
        rw [if_neg e2] at hf2
        exact hinj s1 s2 h1 h2 hf1 hf2 hne

theorem intern1_lookup_self (st : InternState) (s : String) (hr : st.refcount ≠ 0) :
    tableFind s (intern1 st s).1.table = some (intern1 st s).2 := by
  cases hf : tableFind s st.table with
  | some h => rw [intern1_found st s h hr hf]; exact hf
  | none =>
    rw [intern1_fresh st s hr hf]
    show tableFind s ((s, st.next) :: st.table) = some st.next
    rw [tableFind_cons, if_pos rfl]

theorem intern1_lookup_mono (st : InternState) (s t : String) (h : Nat)
    (hf : tableFind t st.table = some h) :
    tableFind t (intern1 st s).1.table = some h := by
  by_cases hr : st.refcount = 0
  · rw [intern1_zero st s hr]; exact hf
  · cases hfs : tableFind s st.table with
    | some h2 => rw [intern1_found st s h2 hr hfs]; exact hf
    | none =>
      rw [intern1_fresh st s hr hfs]
      show tableFind t ((s, st.next) :: st.table) = some h
      rw [tableFind_cons, if_neg]
      · exact hf
      · intro e
        subst e
        rw [hf] at hfs
        exact Option.noConfusion hfs

theorem intern1_above (n : Nat) (st : InternState) (s : String)
    (ha : internAbove n st) :
    internAbove n (intern1 st s).1 ∧ n ≤ (intern1 st s).2 := by
  by_cases hr : st.refcount = 0
  · rw [intern1_zero st s hr]
    exact ⟨⟨Nat.le_succ_of_le ha.1, ha.2⟩, ha.1⟩
  · cases hf : tableFind s st.table with
    | some h =>
      rw [intern1_found st s h hr hf]
      exact ⟨ha, ha.2 (s, h) (tableFind_mem s h st.table hf)⟩
    | none =>
      rw [intern1_fresh st s hr hf]
      refine ⟨⟨Nat.le_succ_of_le ha.1, ?_⟩, ha.1⟩
      intro p hp
      rcases List.mem_cons.mp hp with rfl | hp
      · exact ha.1
      · exact ha.2 p hp

theorem internMany_fst_cons (st : InternState) (s : String) (ss : List String) :
    (internMany st (s :: ss)).1 = (internMany (intern1 st s).1 ss).1 := rfl

theorem internMany_snd_cons (st : InternState) (s : String) (ss : List String) :
    (internMany st (s :: ss)).2 =
      (intern1 st s).2 :: (internMany (intern1 st s).1 ss).2 := rfl

theorem internMany_refcount (ss : List String) :
    ∀ st : InternState, (internMany st ss).1.refcount = st.refcount := by
  induction ss with
  | nil => intro st; rfl
  | cons s ss ih => intro st; rw [internMany_fst_cons, ih, intern1_refcount]

theorem internMany_next_le (ss : List String) :
    ∀ st : InternState, st.next ≤ (internMany st ss).1.next := by
  induction ss with
  | nil => intro st; exact Nat.le_refl _
  | cons s ss ih =>
    intro st
    exact Nat.le_trans (intern1_next_le st s) (ih (intern1 st s).1)

theorem internMany_WF (ss : List String) :
    ∀ st : InternState, internWF st → internWF (internMany st ss).1 := by
  induction ss with
  | nil => intro st h; exact h
  | cons s ss ih => intro st h; exact ih _ (intern1_WF st s h)

theorem internMany_inj (ss : List String) :
    ∀ st : InternState, internWF st → internInj st → internInj (internMany st ss).1 := by
  induction ss with
  | nil => intro st _ h; exact h
  | cons s ss ih =>
    intro st hwf hinj
    exact ih _ (intern1_WF st s hwf) (intern1_inj st s hwf hinj)

theorem internMany_lookup_mono (ss : List String) :
    ∀ (st : InternState) (t : String) (h : Nat),
      tableFind t st.table = some h →
      tableFind t (internMany st ss).1.table = some h := by
  induction ss with
  | nil => intro st t h hf; exact hf
  | cons s ss ih =>
    intro st t h hf
    exact ih _ t h (intern1_lookup_mono st s t h hf)

theorem internMany_lookup_final (ss : List String) :
    ∀ st : InternState, st.refcount ≠ 0 →
      ∀ (i : Nat) (a : String), ss[i]? = some a →
        (internMany st ss).2[i]? = tableFind a (internMany st ss).1.table := by
  induction ss with
  | nil => intro st _ i a hia; simp at hia
  | cons s ss ih =>
    intro st hr i a hia
    match i with
    | 0 =>
      rw [List.getElem?_cons_zero] at hia
      injection hia with hia
      subst hia
      rw [internMany_snd_cons, internMany_fst_cons, List.getElem?_cons_zero]
      exact (internMany_lookup_mono ss (intern1 st s).1 s (intern1 st s).2
        (intern1_lookup_self st s hr)).symm
    | Nat.succ i =>
      rw [List.getElem?_cons_succ] at hia
      rw [internMany_snd_cons, internMany_fst_cons, List.getElem?_cons_succ]
      exact ih (intern1 st s).1 (by rw [intern1_refcount]; exact hr) i a hia

theorem internMany_length (ss : List String) :
    ∀ st : InternState, (internMany st ss).2.length = ss.length := by
  induction ss with
  | nil => intro st; rfl
  | cons s ss ih =>
    intro st
    rw [internMany_snd_cons, List.length_cons, ih, List.length_cons]

theorem internMany_handles_lt (ss : List String) :
    ∀ st : InternState, internWF st →
      ∀ x ∈ (internMany st ss).2, x < (internMany st ss).1.next := by
  induction ss with
  | nil => intro st _ x hx; exact absurd hx (List.not_mem_nil x)
  | cons s ss ih =>
    intro st hwf x hx
    rw [internMany_snd_cons] at hx
    rw [internMany_fst_cons]
    rcases List.mem_cons.mp hx with rfl | hx
    · exact Nat.lt_of_lt_of_le (intern1_handle_lt st s hwf)
        (internMany_next_le ss (intern1 st s).1)
    · exact ih _ (intern1_WF st s hwf) x hx

theorem internMany_above (n : Nat) (ss : List String) :
    ∀ st : InternState, internAbove n st →
      internAbove n (internMany st ss).1 ∧ ∀ x ∈ (internMany st ss).2, n ≤ x := by
  induction ss with
  | nil => intro st ha; exact ⟨ha, fun x hx => absurd hx (List.not_mem_nil x)⟩
  | cons s ss ih =>
    intro st ha
    obtain ⟨ha1, hh⟩ := intern1_above n st s ha
    obtain ⟨ha2, hall⟩ := ih _ ha1
    refine ⟨ha2, ?_⟩
    intro x hx
    rw [internMany_snd_cons] at hx
    rcases List.mem_cons.mp hx with rfl | hx
    · exact hh
    · exact hall x hx

theorem decodeCallInterns_fst (st : InternState) (fs : List String) :
    (decodeCallInterns st fs).1 = release (internMany (activate st) fs).1 := rfl

theorem decodeCallInterns_snd (st : InternState) (fs : List String) :
    (decodeCallInterns st fs).2 = (internMany (activate st) fs).2 := rfl

theorem activate_of_zero (st : InternState) (h : st.refcount = 0) :
    activate st = InternState.mk 1 [] st.next := by
  unfold activate
  rw [if_pos h]

theorem release_of_one (st : InternState) (h : st.refcount = 1) :
    release st = InternState.mk 0 [] st.next := by
  unfold release
  rw [if_pos (by omega)]

theorem internWF_nil_table (r n : Nat) : internWF (InternState.mk r [] n) :=
  fun p hp => absurd hp (List.not_mem_nil p)

theorem internInj_nil_table (r n : Nat) : internInj (InternState.mk r [] n) :=
  fun _ _ _ _ hf1 => Option.noConfusion hf1

/-- C6: within one top-level decode call, two positions with byte-identical
`file` text intern to the same shared handle and positions with different
text to distinct handles, while handles produced by two separate top-level
decode calls are never shared, because each call activates its own
interning scope. -/
theorem interning_scope_isolation (st : InternState) (files1 files2 : List String)
    (i1 j1 i2 j2 : Nat) (a1 a2 b2 : String) (x y : Nat)
    (h0 : st.refcount = 0)
    (hi1 : files1[i1]? = some a1) (hj1 : files1[j1]? = some a1)
    (hi2 : files1[i2]? = some a2) (hj2 : files1[j2]? = some b2) (hab : a2 ≠ b2)
    (hx : x ∈ (decodeCallInterns st files1).2)
    (hy : y ∈ (decodeCallInterns (decodeCallInterns st files1).1 files2).2) :
    (decodeCallInterns st files1).2[i1]? = (decodeCallInterns st files1).2[j1]? ∧
    (decodeCallInterns st files1).2[i2]? ≠ (decodeCallInterns st files1).2[j2]? ∧
    x ≠ y := by
  have hA : activate st = InternState.mk 1 [] st.next := activate_of_zero st h0
  have hAr : (activate st).refcount ≠ 0 := by rw [hA]; exact Nat.one_ne_zero
  have hAwf : internWF (activate st) := by rw [hA]; exact internWF_nil_table 1 st.next
  have hAinj : internInj (activate st) := by rw [hA]; exact internInj_nil_table 1 st.next
  refine ⟨?_, ?_, ?_⟩
  · rw [decodeCallInterns_snd,
      internMany_lookup_final files1 (activate st) hAr i1 a1 hi1,
      internMany_lookup_final files1 (activate st) hAr j1 a1 hj1]
  · have hlfi := internMany_lookup_final files1 (activate st) hAr i2 a2 hi2
    have hlfj := internMany_lookup_final files1 (activate st) hAr j2 b2 hj2
    have hlti : i2 < (internMany (activate st) files1).2.length := by
      rw [internMany_length files1 (activate st)]
      by_contra hge
      rw [List.getElem?_eq_none (Nat.le_of_not_lt hge)] at hi2
      exact Option.noConfusion hi2
    have hltj : j2 < (internMany (activate st) files1).2.length := by
      rw [internMany_length files1 (activate st)]
      by_contra hge
      rw [List.getElem?_eq_none (Nat.le_of_not_lt hge)] at hj2
      exact Option.noConfusion hj2
    obtain ⟨u, hu⟩ : ∃ u, (internMany (activate st) files1).2[i2]? = some u := by
      cases hc : (internMany (activate st) files1).2[i2]? with
      | some u => exact ⟨u, rfl⟩
      | none =>
        exfalso
        have := List.getElem?_eq_none_iff.mp hc
        omega
    obtain ⟨v, hv⟩ : ∃ v, (internMany (activate st) files1).2[j2]? = some v := by
      cases hc : (internMany (activate st) files1).2[j2]? with
      | some v => exact ⟨v, rfl⟩
      | none =>
        exfalso
        have := List.getElem?_eq_none_iff.mp hc
        omega
    have hu2 : tableFind a2 (internMany (activate st) files1).1.table = some u := by
      rw [← hlfi]; exact hu
    have hv2 : tableFind b2 (internMany (activate st) files1).1.table = some v := by
      rw [← hlfj]; exact hv
    have hne : u ≠ v :=
      internMany_inj files1 (activate st) hAwf hAinj a2 b2 u v hu2 hv2 hab
    rw [decodeCallInterns_snd, hu, hv]
    intro hc
    injection hc with hc
    exact hne hc
  · rw [decodeCallInterns_snd] at hx
    have hxlt : x < (internMany (activate st) files1).1.next :=
      internMany_handles_lt files1 (activate st) hAwf x hx
    have hrel : (decodeCallInterns st files1).1 =
        InternState.mk 0 [] (internMany (activate st) files1).1.next := by
      rw [decodeCallInterns_fst]
      apply release_of_one
      rw [internMany_refcount, hA]
    rw [decodeCallInterns_snd, hrel] at hy
    have hact2 : activate (InternState.mk 0 [] (internMany (activate st) files1).1.next) =
        InternState.mk 1 [] (internMany (activate st) files1).1.next :=
      activate_of_zero _ rfl
    rw [hact2] at hy
    have habove : internAbove ((internMany (activate st) files1).1.next)
        (InternState.mk 1 [] (internMany (activate st) files1).1.next) :=
      ⟨Nat.le_refl _, fun p hp => absurd hp (List.not_mem_nil p)⟩
    have hyge := (internMany_above _ files2 _ habove).2 y hy
    omega

/-- Witness for C6: one call interning "a.h", "b.h", "a.h" (handles 0, 1, 0)
followed by a second call interning "a.h" (handle 2). -/
theorem interning_scope_isolation_witness :
    (decodeCallInterns (InternState.mk 0 [] 0) ["a.h", "b.h", "a.h"]).2[0]? =
      (decodeCallInterns (InternState.mk 0 [] 0) ["a.h", "b.h", "a.h"]).2[2]? ∧
    (decodeCallInterns (InternState.mk 0 [] 0) ["a.h", "b.h", "a.h"]).2[0]? ≠
      (decodeCallInterns (InternState.mk 0 [] 0) ["a.h", "b.h", "a.h"]).2[1]? ∧
    (0 : Nat) ≠ 2 :=
  interning_scope_isolation (InternState.mk 0 [] 0) ["a.h", "b.h", "a.h"] ["a.h"]
    0 2 0 1 "a.h" "a.h" "b.h" 0 2
    rfl rfl rfl rfl rfl (by decide) (by decide) (by decide)

end ClangAst
